import Mathlib

/-!
Shallow embedding of `src/faang.py`: a two-stage pipeline that downloads
hourly price rows per ticker, concatenates and sorts them into one table
(`get_data`), and later loads the latest saved table, coerces the close
column to numeric, normalizes each ticker's close series by its first
non-missing value, and builds an overlay chart (`plot_data`).

Numeric cells are modelled as `Option ℚ` (missing = `none`), raw CSV cells
as `RawCell`, timestamps as `ℤ`, the filesystem as an explicit record that
is threaded through the two stage functions, and pandas `sort_values`
(a deterministic comparison sort by key) as `List.insertionSort` with the
corresponding key order.
-/

namespace Faang

/-- A cell of the close column as it sits in a loaded CSV table, before
`pd.to_numeric(..., errors="coerce")` is applied: a numeric value, an empty
cell (NaN), or some non-numeric text. -/
inductive RawCell where
  | num (q : ℚ)
  | missing
  | nonNumeric (s : String)
  deriving DecidableEq

/-- `pd.to_numeric(series, errors="coerce")` on one cell: numeric cells
survive, everything else is coerced to missing; never an error. -/
def to_numeric : RawCell → Option ℚ
  | .num q => some q
  | .missing => none
  | .nonNumeric _ => none

/-- One row returned by `yf.download` for a single ticker (after
`reset_index`): a time axis value plus OHLCV, each price possibly NaN. -/
structure YfRow where
  datetime : ℤ
  open_ : Option ℚ
  high : Option ℚ
  low : Option ℚ
  close : Option ℚ
  volume : Option ℚ
  deriving DecidableEq

/-- One row of the combined table built by `get_data`, after the
`df["Ticker"] = t` tagging (faang.py line 51). -/
structure PriceRow where
  datetime : ℤ
  open_ : Option ℚ
  high : Option ℚ
  low : Option ℚ
  close : Option ℚ
  volume : Option ℚ
  ticker : String
  deriving DecidableEq

/-- `df["Ticker"] = t`: tag every fetched row with its ticker. -/
def tagTicker (t : String) (r : YfRow) : PriceRow :=
  { datetime := r.datetime, open_ := r.open_, high := r.high, low := r.low,
    close := r.close, volume := r.volume, ticker := t }

/-- One row of a persisted CSV table as read back by `pd.read_csv`
(faang.py line 80): the close column is still a raw cell. -/
structure CsvRow where
  datetime : ℤ
  open_ : RawCell
  high : RawCell
  low : RawCell
  close : RawCell
  volume : RawCell
  ticker : String
  deriving DecidableEq

/-- `combined.to_csv` on one numeric value: a present value is written as a
number, a NaN becomes an empty cell. -/
def cellOfOption : Option ℚ → RawCell
  | some q => .num q
  | none => .missing

/-- `combined.to_csv` on one row of the combined table. -/
def rowToCsv (r : PriceRow) : CsvRow :=
  { datetime := r.datetime, open_ := cellOfOption r.open_, high := cellOfOption r.high,
    low := cellOfOption r.low, close := cellOfOption r.close,
    volume := cellOfOption r.volume, ticker := r.ticker }

/-- `series.dropna().iloc[0]` guarded by `series.dropna().empty`
(faang.py line 87): the first non-missing value of a series, if any. -/
def firstSome (s : List (Option ℚ)) : Option ℚ :=
  (s.filterMap id).head?

/-- The `_normalize` closure of `plot_data` (faang.py lines 86-88): divide
the whole series by its first non-missing value; if that base is absent or
equals zero, return an all-missing series (the scalar `pd.NA` that
`transform` broadcasts over the group). -/
def normalizeGroup (s : List (Option ℚ)) : List (Option ℚ) :=
  match firstSome s with
  | some base =>
      if base ≠ 0 then s.map (Option.map (· / base)) else s.map fun _ => none
  | none => s.map fun _ => none

/-- Python's `<` on strings: lexicographic order on the character
sequences (by code point). -/
def strLt (a b : String) : Prop := a.data < b.data

instance : DecidableRel strLt := fun a b =>
  inferInstanceAs (Decidable (a.data < b.data))

/-- Python's `<=` on strings. -/
def strLe (a b : String) : Prop := a = b ∨ strLt a b

instance : DecidableRel strLe := fun a b => by unfold strLe; infer_instance

theorem strLt_trichotomy (a b : String) : strLt a b ∨ a = b ∨ strLt b a := by
  rcases lt_trichotomy a.data b.data with h | h | h
  · exact Or.inl h
  · exact Or.inr (Or.inl (String.ext h))
  · exact Or.inr (Or.inr h)

theorem strLt_asymm {a b : String} (h : strLt a b) : ¬ strLt b a :=
  lt_asymm (h : a.data < b.data)

theorem strLt_trans {a b c : String} (h₁ : strLt a b) (h₂ : strLt b c) :
    strLt a c :=
  lt_trans (h₁ : a.data < b.data) (h₂ : b.data < c.data)

theorem strLt_irrefl (a : String) : ¬ strLt a a :=
  lt_irrefl a.data

theorem strLe_trans {a b c : String} (h₁ : strLe a b) (h₂ : strLe b c) :
    strLe a c := by
  rcases h₁ with rfl | h₁
  · exact h₂
  · rcases h₂ with rfl | h₂
    · exact Or.inr h₁
    · exact Or.inr (strLt_trans h₁ h₂)

theorem strLe_total (a b : String) : strLe a b ∨ strLe b a := by
  rcases strLt_trichotomy a b with h | h | h
  · exact Or.inl (Or.inr h)
  · exact Or.inl (Or.inl h)
  · exact Or.inr (Or.inr h)

instance : IsTotal String strLe := ⟨strLe_total⟩

instance : IsTrans String strLe := ⟨fun _ _ _ => strLe_trans⟩

/-- Key order of `combined.sort_values(["Datetime", "Ticker"])`
(faang.py line 63): primarily by timestamp, secondarily by ticker. -/
def datetimeTickerLe (a b : PriceRow) : Prop :=
  a.datetime < b.datetime ∨ (a.datetime = b.datetime ∧ strLe a.ticker b.ticker)

instance : DecidableRel datetimeTickerLe := fun a b => by
  unfold datetimeTickerLe; infer_instance

instance : IsTotal PriceRow datetimeTickerLe where
  total a b := by
    rcases lt_trichotomy a.datetime b.datetime with h | h | h
    · exact Or.inl (Or.inl h)
    · rcases strLe_total a.ticker b.ticker with h' | h'
      · exact Or.inl (Or.inr ⟨h, h'⟩)
      · exact Or.inr (Or.inr ⟨h.symm, h'⟩)
    · exact Or.inr (Or.inl h)

instance : IsTrans PriceRow datetimeTickerLe where
  trans a b c hab hbc := by
    rcases hab with h₁ | ⟨e₁, t₁⟩
    · rcases hbc with h₂ | ⟨e₂, _⟩
      · exact Or.inl (h₁.trans h₂)
      · exact Or.inl (e₂ ▸ h₁)
    · rcases hbc with h₂ | ⟨e₂, t₂⟩
      · exact Or.inl (e₁ ▸ h₂)
      · exact Or.inr ⟨e₁.trans e₂, strLe_trans t₁ t₂⟩

/-- Strict version of `datetimeTickerLe`; rows with distinct
(timestamp, ticker) keys that are sorted by the weak order are sorted by
this strict order. -/
def datetimeTickerLt (a b : PriceRow) : Prop :=
  a.datetime < b.datetime ∨ (a.datetime = b.datetime ∧ strLt a.ticker b.ticker)

instance : IsAntisymm PriceRow datetimeTickerLt where
  antisymm a b hab hba := by
    rcases hab with h₁ | ⟨e₁, t₁⟩ <;> rcases hba with h₂ | ⟨e₂, t₂⟩
    · exact absurd h₂ (lt_asymm h₁)
    · exact absurd h₁ (e₂ ▸ lt_irrefl _)
    · exact absurd h₂ (e₁ ▸ lt_irrefl _)
    · exact absurd t₂ (strLt_asymm t₁)

/-- Key order of `df.sort_values(["Ticker", "Datetime"])` in `plot_data`
(faang.py line 84): primarily by ticker, secondarily by timestamp. -/
def tickerDatetimeLe (a b : CsvRow) : Prop :=
  strLt a.ticker b.ticker ∨ (a.ticker = b.ticker ∧ a.datetime ≤ b.datetime)

instance : DecidableRel tickerDatetimeLe := fun a b => by
  unfold tickerDatetimeLe; infer_instance

instance : IsTotal CsvRow tickerDatetimeLe where
  total a b := by
    rcases strLt_trichotomy a.ticker b.ticker with h | h | h
    · exact Or.inl (Or.inl h)
    · rcases le_total a.datetime b.datetime with h' | h'
      · exact Or.inl (Or.inr ⟨h, h'⟩)
      · exact Or.inr (Or.inr ⟨h.symm, h'⟩)
    · exact Or.inr (Or.inl h)

instance : IsTrans CsvRow tickerDatetimeLe where
  trans a b c hab hbc := by
    rcases hab with h₁ | ⟨e₁, t₁⟩
    · rcases hbc with h₂ | ⟨e₂, _⟩
      · exact Or.inl (strLt_trans h₁ h₂)
      · exact Or.inl (e₂ ▸ h₁)
    · rcases hbc with h₂ | ⟨e₂, t₂⟩
      · exact Or.inl (e₁ ▸ h₂)
      · exact Or.inr ⟨e₁.trans e₂, t₁.trans t₂⟩

/-- The UTC wall-clock instant taken by `dt.datetime.utcnow()`, split into
calendar fields. -/
structure DateTime where
  year : ℕ
  month : ℕ
  day : ℕ
  hour : ℕ
  minute : ℕ
  second : ℕ
  deriving DecidableEq

/-- A calendar instant whose fields are in the ranges `strftime` renders in
fixed width (four-digit year, two digits for every other field). -/
def ValidDT (t : DateTime) : Prop :=
  t.year < 10000 ∧ 1 ≤ t.month ∧ t.month ≤ 12 ∧ 1 ≤ t.day ∧ t.day ≤ 31 ∧
    t.hour < 24 ∧ t.minute < 60 ∧ t.second < 60

instance : DecidablePred ValidDT := fun t => by unfold ValidDT; infer_instance

/-- Chronological (field-lexicographic) strict order on calendar instants. -/
def chronoLt (a b : DateTime) : Prop :=
  a.year < b.year ∨ (a.year = b.year ∧ (a.month < b.month ∨ (a.month = b.month ∧
    (a.day < b.day ∨ (a.day = b.day ∧ (a.hour < b.hour ∨ (a.hour = b.hour ∧
      (a.minute < b.minute ∨ (a.minute = b.minute ∧ a.second < b.second)))))))))

instance : DecidableRel chronoLt := fun a b => by unfold chronoLt; infer_instance

/-- The decimal digit character of `n < 10`. -/
def digitChar (n : ℕ) : Char := Char.ofNat (48 + n)

/-- A natural number rendered as exactly two decimal digits (`%m`, `%d`,
`%H`, `%M`, `%S` with zero padding). -/
def pad2 (n : ℕ) : List Char := [digitChar (n / 10), digitChar (n % 10)]

/-- A natural number rendered as exactly four decimal digits (`%Y` with
zero padding, for years below 10000). -/
def pad4 (n : ℕ) : List Char := pad2 (n / 100) ++ pad2 (n % 100)

/-- `timestamp_str` (faang.py lines 18-20): format the current UTC time as
`YYYYMMDD-HHMMSS`.  Filenames are modelled as `List Char`, compared by the
same character-lexicographic order Python uses on strings. -/
def timestamp_str (t : DateTime) : List Char :=
  pad4 t.year ++ (pad2 t.month ++ (pad2 t.day ++
    ('-' :: (pad2 t.hour ++ (pad2 t.minute ++ pad2 t.second)))))

/-- The `.csv` filename suffix. -/
def csvExt : List Char := ['.', 'c', 's', 'v']

/-- The `.png` filename suffix. -/
def pngExt : List Char := ['.', 'p', 'n', 'g']

/-- The filename `f"{timestamp_str()}.csv"` of the table written at `now`. -/
def csvName (t : DateTime) : List Char := timestamp_str t ++ csvExt

/-- The filesystem state the two stages thread: the set of directories that
exist, the CSV tables in `data/` (name, parsed content) and the chart file
names in `plots/`. -/
structure FileSystem where
  dirs : List String
  dataFiles : List (List Char × List CsvRow)
  plotFiles : List (List Char)
  deriving DecidableEq

/-- `ensure_dir` (faang.py lines 23-26): `mkdir(parents=True, exist_ok=True)`. -/
def ensure_dir (fs : FileSystem) (d : String) : FileSystem :=
  if d ∈ fs.dirs then fs else { fs with dirs := d :: fs.dirs }

/-- The two exception classes the script can raise: `RuntimeError` from
`get_data` (line 60) and `FileNotFoundError` from `plot_data` (line 78). -/
inductive PipelineError where
  | runtimeError (msg : String)
  | fileNotFoundError (msg : String)
  deriving DecidableEq

/-- The default ticker list (faang.py line 15). -/
def FAANG : List String := ["META", "AAPL", "AMZN", "NFLX", "GOOG"]

/-- The per-ticker fetch loop of `get_data` (faang.py lines 37-57): an empty
result is skipped via `continue`, a non-empty one is tagged with its ticker
and appended.  `download` abstracts `yf.download` for the fixed window. -/
def fetchBlocks (download : String → List YfRow) (tickers : List String) :
    List (List PriceRow) :=
  tickers.filterMap fun t =>
    let df := download t
    if df = [] then none else some (df.map (tagTicker t))

/-- `pd.concat(dfs, ignore_index=True)` (faang.py line 62). -/
def combinedRows (download : String → List YfRow) (tickers : List String) :
    List PriceRow :=
  (fetchBlocks download tickers).flatten

/-- The combined table after `sort_values(["Datetime", "Ticker"])`
(faang.py line 63). -/
def get_data_table (download : String → List YfRow) (tickers : List String) :
    List PriceRow :=
  List.insertionSort datetimeTickerLe (combinedRows download tickers)

/-- `get_data` (faang.py lines 29-68): fetch every ticker, raise
`RuntimeError` when nothing at all was fetched, otherwise concatenate,
sort, create `data/` and write one timestamped CSV, returning its name. -/
def get_data (download : String → List YfRow) (tickers : List String)
    (now : DateTime) (fs : FileSystem) :
    FileSystem × Except PipelineError (List Char) :=
  if fetchBlocks download tickers = [] then
    (fs, .error (.runtimeError "No data downloaded. Check tickers or network."))
  else
    let combined := get_data_table download tickers
    let fs₁ := ensure_dir fs "data"
    let name := csvName now
    let fs₂ := { fs₁ with dataFiles := fs₁.dataFiles ++ [(name, combined.map rowToCsv)] }
    (fs₂, .ok name)

/-- The names present in `data/` (`data_dir.glob("*.csv")`; every file the
model stores there is a CSV). -/
def dataListing (fs : FileSystem) : List (List Char) :=
  fs.dataFiles.map fun p => p.1

/-- `sorted(data_dir.glob("*.csv"))` (faang.py line 76): the listing sorted
by lexicographic filename order. -/
def sortedFiles (fs : FileSystem) : List (List Char) :=
  List.insertionSort (fun a b : List Char => a ≤ b) (dataListing fs)

/-- `pd.read_csv(latest, ...)`: the stored content of a named table. -/
def loadFile (fs : FileSystem) (name : List Char) : List CsvRow :=
  ((fs.dataFiles.find? fun p => p.1 == name).map fun p => p.2).getD []

/-- The table of faang.py line 84, sorted by (Ticker, Datetime). -/
def sortedTable (df : List CsvRow) : List CsvRow :=
  List.insertionSort tickerDatetimeLe df

/-- One ticker's group of rows (`df.groupby("Ticker")` on the sorted,
hence ticker-contiguous, table). -/
def tickerRows (df : List CsvRow) (t : String) : List CsvRow :=
  (sortedTable df).filter fun r => r.ticker = t

/-- One ticker's raw close cells, in group order. -/
def closeCells (df : List CsvRow) (t : String) : List RawCell :=
  (tickerRows df t).map fun r => r.close

/-- One ticker's close series after
`df["Close"] = pd.to_numeric(df["Close"], errors="coerce")` (line 85). -/
def closeSeries (df : List CsvRow) (t : String) : List (Option ℚ) :=
  (closeCells df t).map to_numeric

/-- One ticker's `NormClose` column, as placed by
`df.groupby("Ticker")["Close"].transform(_normalize)` (line 89). -/
def normSeries (df : List CsvRow) (t : String) : List (Option ℚ) :=
  normalizeGroup (closeSeries df t)

/-- The distinct tickers of the table in the sorted order `groupby`
iterates them (faang.py line 92). -/
def tickerList (df : List CsvRow) : List String :=
  List.insertionSort strLe (df.map fun r => r.ticker).dedup

/-- The surviving points of one ticker's line: the rows kept by
`g.dropna(subset=["NormClose"])` (faang.py line 93), as
(timestamp, normalized close) pairs. -/
def chartPoints (df : List CsvRow) (t : String) : List (ℤ × ℚ) :=
  (((tickerRows df t).map fun r => r.datetime).zip (normSeries df t)).filterMap
    fun p => p.2.map fun q => (p.1, q)

/-- The plotted line of one ticker, if any; `none` when the group has no
valid point (`if not g.empty`, faang.py lines 94-95). -/
def chartLine (df : List CsvRow) (t : String) : Option (String × List (ℤ × ℚ)) :=
  if chartPoints df t = [] then none else some (t, chartPoints df t)

/-- The chart assembled by the plotting loop (faang.py lines 92-95): one
labelled line per ticker that has at least one valid normalized point. -/
def chartOf (df : List CsvRow) : List (String × List (ℤ × ℚ)) :=
  (tickerList df).filterMap (chartLine df)

/-- `plot_data` (faang.py lines 71-109): ensure `data/` exists, pick the
lexicographically last CSV, raise `FileNotFoundError` when there is none,
otherwise load it, normalize per ticker, build the chart, ensure `plots/`
exists and record the saved PNG. -/
def plot_data (fs : FileSystem) (now : DateTime) :
    FileSystem × Except PipelineError (List (String × List (ℤ × ℚ))) :=
  let fs₁ := ensure_dir fs "data"
  match (sortedFiles fs₁).getLast? with
  | none => (fs₁, .error (.fileNotFoundError "No CSV files in data/. Run download first."))
  | some latest =>
      let df := loadFile fs₁ latest
      let chart := chartOf df
      let fs₂ := ensure_dir fs₁ "plots"
      let fs₃ := { fs₂ with plotFiles := fs₂.plotFiles ++ [timestamp_str now ++ pngExt] }
      (fs₃, .ok chart)

/-! Concrete fixtures used to instantiate the theorems below. -/

/-- A small concrete loaded table: ticker "A" has closes 5 and 6, "B" has a
single non-numeric close, "N" has a negative first close, "Z" a first close
of zero. -/
def dfW : List CsvRow :=
  [⟨10, .missing, .missing, .missing, .num 5, .missing, "A"⟩,
   ⟨11, .missing, .missing, .missing, .num 6, .missing, "A"⟩,
   ⟨10, .missing, .missing, .missing, .nonNumeric "oops", .missing, "B"⟩,
   ⟨10, .missing, .missing, .missing, .num (-2), .missing, "N"⟩,
   ⟨11, .missing, .missing, .missing, .num 3, .missing, "N"⟩,
   ⟨10, .missing, .missing, .missing, .num 0, .missing, "Z"⟩]

/-- A concrete fetch result: "A" returns two rows, "B" one row, every other
ticker an empty series. -/
def dlW : String → List YfRow := fun t =>
  if t = "A" then
    [⟨10, none, none, none, some 5, none⟩, ⟨11, none, none, none, some 6, none⟩]
  else if t = "B" then [⟨10, none, none, none, some 100, none⟩]
  else []

/-- A fresh filesystem: no directories, no files. -/
def fsEmpty : FileSystem := ⟨[], [], []⟩

/-- A filesystem whose `data/` directory holds one table, `dfW`. -/
def fsW : FileSystem := ⟨["data"], [(csvName ⟨2025, 1, 1, 0, 0, 0⟩, dfW)], []⟩

/-- A concrete invocation instant. -/
def nowW : DateTime := ⟨2025, 1, 2, 3, 4, 5⟩

/-! Lemmas about `_normalize` (`normalizeGroup`). -/

theorem firstSome_spec {s : List (Option ℚ)} {b : ℚ} (h : firstSome s = some b) :
    ∃ j, j < s.length ∧ (∀ k, k < j → s[k]? = some none) ∧ s[j]? = some (some b) := by
  induction s with
  | nil => simp [firstSome] at h
  | cons a s ih =>
    cases a with
    | none =>
      have h' : firstSome s = some b := by
        simpa [firstSome, List.filterMap_cons] using h
      obtain ⟨j, hj, hk, hjv⟩ := ih h'
      refine ⟨j + 1, Nat.succ_lt_succ hj, ?_, by simpa using hjv⟩
      intro k hk'
      cases k with
      | zero => simp
      | succ k => simpa using hk k (Nat.lt_of_succ_lt_succ hk')
    | some q =>
      have hq : q = b := by simpa [firstSome, List.filterMap_cons] using h
      exact ⟨0, Nat.succ_pos _, fun k hk => absurd hk (Nat.not_lt_zero k),
        by simp [hq]⟩

theorem normalizeGroup_base {s : List (Option ℚ)} {b : ℚ}
    (h : firstSome s = some b) (hb : b ≠ 0) :
    normalizeGroup s = s.map (Option.map (· / b)) := by
  unfold normalizeGroup
  rw [h]
  simp [hb]

theorem normalizeGroup_undefined {s : List (Option ℚ)}
    (h : firstSome s = none ∨ firstSome s = some 0) :
    normalizeGroup s = List.replicate s.length none := by
  unfold normalizeGroup
  rcases h with h | h <;> rw [h] <;> simp [List.map_const']

theorem normalizeGroup_none_at {s : List (Option ℚ)} {i : ℕ}
    (h : s[i]? = some none) : (normalizeGroup s)[i]? = some none := by
  have hi : i < s.length := by
    by_contra hge
    rw [List.getElem?_eq_none (le_of_not_lt hge)] at h
    cases h
  unfold normalizeGroup
  cases hf : firstSome s with
  | none => simp [h, hi]
  | some base =>
    have hsi : s[i] = none := by
      have hg := List.getElem?_eq_getElem hi
      rw [h] at hg
      exact (Option.some.inj hg).symm
    by_cases hb : base = 0
    · simp [hb, h, hi]
    · simp [hb, h, hi, hsi]

theorem dataListing_ensure_dir (fs : FileSystem) (d : String) :
    dataListing (ensure_dir fs d) = dataListing fs := by
  unfold ensure_dir dataListing
  split <;> rfl

theorem sortedFiles_getLast?_isSome {fs : FileSystem} (h : dataListing fs ≠ []) :
    ∃ m, (sortedFiles fs).getLast? = some m := by
  have hne : sortedFiles fs ≠ [] := by
    intro hnil
    apply h
    have hp := List.perm_insertionSort (fun a b : List Char => a ≤ b) (dataListing fs)
    rw [show sortedFiles fs =
      List.insertionSort (fun a b : List Char => a ≤ b) (dataListing fs) from rfl] at hnil
    rw [hnil] at hp
    exact hp.symm.eq_nil
  cases hg : (sortedFiles fs).getLast? with
  | none => exact absurd (List.getLast?_eq_none_iff.mp hg) hne
  | some m => exact ⟨m, rfl⟩

theorem plot_data_ok (fs : FileSystem) (now : DateTime)
    (h : dataListing fs ≠ []) :
    ∃ chart, (plot_data fs now).2 = Except.ok chart := by
  have h₁ : dataListing (ensure_dir fs "data") ≠ [] := by
    rw [dataListing_ensure_dir]; exact h
  obtain ⟨m, hm⟩ := sortedFiles_getLast?_isSome h₁
  simp only [plot_data]
  rw [hm]
  exact ⟨_, rfl⟩

theorem chartLine_label {df : List CsvRow} {t : String}
    {line : String × List (ℤ × ℚ)} (h : chartLine df t = some line) :
    line.1 = t := by
  unfold chartLine at h
  split at h
  · simp at h
  · injection h with h'
    rw [← h']

theorem chartPoints_nil_of_replicate {df : List CsvRow} {t : String}
    (hrep : normSeries df t = List.replicate (closeSeries df t).length none) :
    chartPoints df t = [] := by
  unfold chartPoints
  rw [List.filterMap_eq_nil_iff]
  intro p hp
  have h2 := (List.of_mem_zip hp).2
  rw [hrep] at h2
  rw [List.eq_of_mem_replicate h2]
  rfl

theorem normSeries_at_of_base {df : List CsvRow} {t : String} {b : ℚ}
    (hb : firstSome (closeSeries df t) = some b) (hnz : b ≠ 0) (i : ℕ) :
    (∀ c : ℚ, (closeSeries df t)[i]? = some (some c) →
      (normSeries df t)[i]? = some (some (c / b))) ∧
    ((closeSeries df t)[i]? = some none → (normSeries df t)[i]? = some none) := by
  unfold normSeries
  rw [normalizeGroup_base hb hnz]
  constructor
  · intro c hc
    simp [hc]
  · intro hc
    simp [hc]

/-! Claim theorems for the normalization stage. -/

/-- C1: for every ticker group of the loaded table whose first non-missing
close `b` (in chronological order after the (ticker, timestamp) sort)
exists and is nonzero, the `_normalize` output equals `close[i] / b` at
every row where the close is present and is missing (not zero) at every
row where the close is missing. -/
theorem normalized_eq_close_div_base (df : List CsvRow) (t : String) (b : ℚ)
    (hb : firstSome (closeSeries df t) = some b) (hnz : b ≠ 0) :
    ∀ i : ℕ,
      (∀ c : ℚ, (closeSeries df t)[i]? = some (some c) →
        (normSeries df t)[i]? = some (some (c / b))) ∧
      ((closeSeries df t)[i]? = some none → (normSeries df t)[i]? = some none) :=
  fun i => normSeries_at_of_base hb hnz i

/-- C1 witness: the theorem applied to the concrete table `dfW`, ticker
"A", base 5. -/
theorem normalized_eq_close_div_base_witness :
    firstSome (closeSeries dfW "A") = some 5 ∧ (5 : ℚ) ≠ 0 ∧
      ∀ i : ℕ,
        (∀ c : ℚ, (closeSeries dfW "A")[i]? = some (some c) →
          (normSeries dfW "A")[i]? = some (some (c / 5))) ∧
        ((closeSeries dfW "A")[i]? = some none →
          (normSeries dfW "A")[i]? = some none) :=
  ⟨by decide, by decide,
    normalized_eq_close_div_base dfW "A" 5 (by decide) (by decide)⟩

/-- C2: a ticker whose close series has no non-missing value, or whose
first non-missing close is 0, gets an entirely missing normalized series,
contributes no line to the chart, and `plot_data` still succeeds whenever
any table file exists. -/
theorem undefined_base_excluded (df : List CsvRow) (t : String)
    (hbad : firstSome (closeSeries df t) = none ∨
      firstSome (closeSeries df t) = some 0) :
    normSeries df t = List.replicate (closeSeries df t).length none ∧
      (∀ line ∈ chartOf df, line.1 ≠ t) ∧
      ∀ fs now, dataListing fs ≠ [] →
        ∃ chart, (plot_data fs now).2 = Except.ok chart := by
  have hrep : normSeries df t = List.replicate (closeSeries df t).length none := by
    unfold normSeries
    exact normalizeGroup_undefined hbad
  refine ⟨hrep, ?_, fun fs now h => plot_data_ok fs now h⟩
  intro line hline
  obtain ⟨t', _ht', hch⟩ := List.mem_filterMap.mp hline
  intro hlab
  rw [chartLine_label hch] at hlab
  subst hlab
  unfold chartLine at hch
  rw [chartPoints_nil_of_replicate hrep] at hch
  simp at hch

/-- C2 witness: ticker "Z" of `dfW` has first close 0, and ticker "X" never
appears (no close at all); both hypothesis forms are exercised with "Z". -/
theorem undefined_base_excluded_witness :
    (firstSome (closeSeries dfW "Z") = none ∨
      firstSome (closeSeries dfW "Z") = some 0) ∧
      (normSeries dfW "Z" = List.replicate (closeSeries dfW "Z").length none ∧
        (∀ line ∈ chartOf dfW, line.1 ≠ "Z") ∧
        ∀ fs now, dataListing fs ≠ [] →
          ∃ chart, (plot_data fs now).2 = Except.ok chart) :=
  ⟨Or.inr (by decide), undefined_base_excluded dfW "Z" (Or.inr (by decide))⟩

/-- C8: a non-numeric close cell is coerced to missing (no error raised)
and propagates as missing through normalization rather than becoming zero
or failing. -/
theorem malformed_close_coerced (df : List CsvRow) (t : String) (i : ℕ)
    (s : String)
    (hcell : (closeCells df t)[i]? = some (RawCell.nonNumeric s)) :
    to_numeric (RawCell.nonNumeric s) = none ∧
      (closeSeries df t)[i]? = some none ∧
      (normSeries df t)[i]? = some none := by
  have hc : (closeSeries df t)[i]? = some none := by
    unfold closeSeries
    simp [hcell, to_numeric]
  refine ⟨rfl, hc, ?_⟩
  unfold normSeries
  exact normalizeGroup_none_at hc

/-- C8 witness: the non-numeric cell of ticker "B" in `dfW`. -/
theorem malformed_close_coerced_witness :
    (closeCells dfW "B")[0]? = some (RawCell.nonNumeric "oops") ∧
      (to_numeric (RawCell.nonNumeric "oops") = none ∧
        (closeSeries dfW "B")[0]? = some none ∧
        (normSeries dfW "B")[0]? = some none) :=
  ⟨by decide, malformed_close_coerced dfW "B" 0 "oops" (by decide)⟩

/-- C10: a strictly negative first non-missing close is a valid base (only
exactly-zero or missing bases are excluded): the normalized series is
defined, equals 1 at the base position, and maps every present close `c`
to `c / b`. -/
theorem negative_base_normalizes (df : List CsvRow) (t : String) (b : ℚ)
    (hb : firstSome (closeSeries df t) = some b) (hneg : b < 0) :
    (∃ j, j < (closeSeries df t).length ∧
      (∀ k, k < j → (closeSeries df t)[k]? = some none) ∧
      (closeSeries df t)[j]? = some (some b) ∧
      (normSeries df t)[j]? = some (some 1)) ∧
    ∀ i : ℕ, ∀ c : ℚ, (closeSeries df t)[i]? = some (some c) →
      (normSeries df t)[i]? = some (some (c / b)) := by
  have hnz : b ≠ 0 := ne_of_lt hneg
  obtain ⟨j, hj, hk, hjv⟩ := firstSome_spec hb
  refine ⟨⟨j, hj, hk, hjv, ?_⟩,
    fun i c hc => (normSeries_at_of_base hb hnz i).1 c hc⟩
  have := (normSeries_at_of_base hb hnz j).1 b hjv
  rwa [div_self hnz] at this

/-- C10 witness: ticker "N" of `dfW` has first close -2 < 0. -/
theorem negative_base_normalizes_witness :
    firstSome (closeSeries dfW "N") = some (-2) ∧ (-2 : ℚ) < 0 ∧
      ((∃ j, j < (closeSeries dfW "N").length ∧
        (∀ k, k < j → (closeSeries dfW "N")[k]? = some none) ∧
        (closeSeries dfW "N")[j]? = some (some (-2)) ∧
        (normSeries dfW "N")[j]? = some (some 1)) ∧
      ∀ i : ℕ, ∀ c : ℚ, (closeSeries dfW "N")[i]? = some (some c) →
        (normSeries dfW "N")[i]? = some (some (c / (-2)))) :=
  ⟨by decide, by decide,
    negative_base_normalizes dfW "N" (-2) (by decide) (by decide)⟩

/-! Lemmas and claim theorems for the retrieval stage. -/

theorem fetchBlocks_eq_nil_iff (download : String → List YfRow)
    (tickers : List String) :
    fetchBlocks download tickers = [] ↔ ∀ t ∈ tickers, download t = [] := by
  unfold fetchBlocks
  rw [List.filterMap_eq_nil_iff]
  constructor
  · intro h t ht
    have hx := h t ht
    by_cases he : download t = []
    · exact he
    · simp [he] at hx
  · intro h t ht
    simp [h t ht]

theorem combinedRows_mem {download : String → List YfRow}
    {tickers : List String} {r : PriceRow}
    (hr : r ∈ combinedRows download tickers) :
    ∃ t ∈ tickers, download t ≠ [] ∧ r ∈ (download t).map (tagTicker t) := by
  unfold combinedRows fetchBlocks at hr
  obtain ⟨block, hb, hrb⟩ := List.mem_flatten.mp hr
  obtain ⟨t, ht, hf⟩ := List.mem_filterMap.mp hb
  by_cases he : download t = []
  · simp [he] at hf
  · refine ⟨t, ht, he, ?_⟩
    simp only [he, if_neg] at hf
    rw [show ((download t).map (tagTicker t)) = block by simpa using hf]
    exact hrb

/-- C3: `get_data` raises exactly when every requested ticker returns an
empty series, and in that case it returns the filesystem unchanged: no
file written and no directory created before the raise. -/
theorem no_data_error_iff (download : String → List YfRow)
    (tickers : List String) (now : DateTime) (fs : FileSystem) :
    ((∃ e, (get_data download tickers now fs).2 = Except.error e) ↔
      ∀ t ∈ tickers, download t = []) ∧
    ((∀ t ∈ tickers, download t = []) →
      (get_data download tickers now fs).1 = fs) := by
  by_cases h : fetchBlocks download tickers = []
  · have hall := (fetchBlocks_eq_nil_iff download tickers).mp h
    have hred : get_data download tickers now fs =
        (fs, Except.error (PipelineError.runtimeError
          "No data downloaded. Check tickers or network.")) := by
      unfold get_data
      rw [if_pos h]
    rw [hred]
    exact ⟨⟨fun _ => hall, fun _ => ⟨_, rfl⟩⟩, fun _ => rfl⟩
  · have hne : ¬ ∀ t ∈ tickers, download t = [] := fun hall =>
      h ((fetchBlocks_eq_nil_iff download tickers).mpr hall)
    have hred : (get_data download tickers now fs).2 =
        Except.ok (csvName now) := by
      unfold get_data
      rw [if_neg h]
    constructor
    · constructor
      · rintro ⟨e, he⟩
        rw [hred] at he
        cases he
      · intro hall
        exact absurd hall hne
    · intro hall
      exact absurd hall hne

/-- C3 witness: with every requested ticker empty, the error fires and the
filesystem is untouched. -/
theorem no_data_error_iff_witness :
    (∀ t ∈ ["X", "Y"], dlW t = []) ∧
      (get_data dlW ["X", "Y"] nowW fsEmpty).1 = fsEmpty :=
  ⟨by decide, (no_data_error_iff dlW ["X", "Y"] nowW fsEmpty).2 (by decide)⟩

/-- C7: a ticker whose fetch comes back empty is silently skipped: when at
least one other ticker has data, `get_data` succeeds and the combined
table has no row tagged with the empty ticker. -/
theorem empty_ticker_skipped (download : String → List YfRow)
    (tickers : List String) (t₀ : String) (now : DateTime) (fs : FileSystem)
    (h₀ : download t₀ = []) (hsome : ∃ t ∈ tickers, download t ≠ []) :
    (get_data download tickers now fs).2 = Except.ok (csvName now) ∧
      ∀ r ∈ get_data_table download tickers, r.ticker ≠ t₀ := by
  obtain ⟨t₁, ht₁, hne₁⟩ := hsome
  have hblocks : fetchBlocks download tickers ≠ [] := fun hnil =>
    hne₁ ((fetchBlocks_eq_nil_iff download tickers).mp hnil t₁ ht₁)
  constructor
  · unfold get_data
    rw [if_neg hblocks]
  · intro r hr
    unfold get_data_table at hr
    have hr' : r ∈ combinedRows download tickers :=
      (List.perm_insertionSort datetimeTickerLe
        (combinedRows download tickers)).mem_iff.mp hr
    obtain ⟨t, ht, hne, hmem⟩ := combinedRows_mem hr'
    obtain ⟨y, _hy, rfl⟩ := List.mem_map.mp hmem
    intro hticker
    exact hne (by rw [show t = t₀ from hticker]; exact h₀)

/-- C7 witness: "X" is empty, "A" has data; `get_data` succeeds on
["A", "B", "X"] and no output row carries ticker "X". -/
theorem empty_ticker_skipped_witness :
    dlW "X" = [] ∧
      ((get_data dlW ["A", "B", "X"] nowW fsEmpty).2 =
          Except.ok (csvName nowW) ∧
        ∀ r ∈ get_data_table dlW ["A", "B", "X"], r.ticker ≠ "X") :=
  ⟨by decide,
    empty_ticker_skipped dlW ["A", "B", "X"] "X" nowW fsEmpty (by decide)
      ⟨"A", by decide, by decide⟩⟩

/-- C6: an empty data directory makes `plot_data` raise
`FileNotFoundError`, all-empty fetches make `get_data` raise
`RuntimeError`, and the two error kinds are distinct. -/
theorem error_kinds_distinct :
    (∀ fs now, dataListing fs = [] → (plot_data fs now).2 =
      Except.error (PipelineError.fileNotFoundError
        "No CSV files in data/. Run download first.")) ∧
    (∀ download tickers now fs, (∀ t ∈ tickers, download t = []) →
      (get_data download tickers now fs).2 =
        Except.error (PipelineError.runtimeError
          "No data downloaded. Check tickers or network.")) ∧
    ∀ m₁ m₂, PipelineError.fileNotFoundError m₁ ≠ PipelineError.runtimeError m₂ := by
  refine ⟨?_, ?_, ?_⟩
  · intro fs now h
    have h₁ : dataListing (ensure_dir fs "data") = [] := by
      rw [dataListing_ensure_dir]
      exact h
    have hs : sortedFiles (ensure_dir fs "data") = [] := by
      unfold sortedFiles
      rw [h₁]
      rfl
    simp only [plot_data]
    rw [hs]
    rfl
  · intro download tickers now fs hall
    have h := (fetchBlocks_eq_nil_iff download tickers).mpr hall
    unfold get_data
    rw [if_pos h]
  · intro m₁ m₂ h
    exact PipelineError.noConfusion h

/-- C6 witness: the two error paths at concrete inputs. -/
theorem error_kinds_distinct_witness :
    (plot_data fsEmpty nowW).2 =
        Except.error (PipelineError.fileNotFoundError
          "No CSV files in data/. Run download first.") ∧
      (get_data dlW ["X"] nowW fsEmpty).2 =
        Except.error (PipelineError.runtimeError
          "No data downloaded. Check tickers or network.") :=
  ⟨error_kinds_distinct.1 fsEmpty nowW (by decide),
    error_kinds_distinct.2.1 dlW ["X"] nowW fsEmpty (by decide)⟩

/-- C9: when the data directory is absent and holds no table, `plot_data`
still creates it before raising the missing-artifacts error, so the
filesystem is changed on this fatal path. -/
theorem plot_creates_data_dir (fs : FileSystem) (now : DateTime)
    (h₁ : "data" ∉ fs.dirs) (h₂ : dataListing fs = []) :
    "data" ∈ (plot_data fs now).1.dirs ∧
      (∃ m, (plot_data fs now).2 =
        Except.error (PipelineError.fileNotFoundError m)) ∧
      (plot_data fs now).1 ≠ fs := by
  have h₁' : dataListing (ensure_dir fs "data") = [] := by
    rw [dataListing_ensure_dir]
    exact h₂
  have hs : sortedFiles (ensure_dir fs "data") = [] := by
    unfold sortedFiles
    rw [h₁']
    rfl
  have hred : plot_data fs now = (ensure_dir fs "data",
      Except.error (PipelineError.fileNotFoundError
        "No CSV files in data/. Run download first.")) := by
    simp only [plot_data]
    rw [hs]
    rfl
  rw [hred]
  have hdirs : (ensure_dir fs "data").dirs = "data" :: fs.dirs := by
    unfold ensure_dir
    rw [if_neg h₁]
  have hmem : "data" ∈ (ensure_dir fs "data").dirs := by
    rw [hdirs]
    exact List.mem_cons_self _ _
  refine ⟨hmem, ⟨_, rfl⟩, ?_⟩
  intro heq
  apply h₁
  rw [← heq]
  exact hmem

/-- C9 witness: a fresh filesystem gains the data directory even though
`plot_data` fails. -/
theorem plot_creates_data_dir_witness :
    "data" ∉ fsEmpty.dirs ∧
      ("data" ∈ (plot_data fsEmpty nowW).1.dirs ∧
        (∃ m, (plot_data fsEmpty nowW).2 =
          Except.error (PipelineError.fileNotFoundError m)) ∧
        (plot_data fsEmpty nowW).1 ≠ fsEmpty) :=
  ⟨by decide, plot_creates_data_dir fsEmpty nowW (by decide) (by decide)⟩

/-! Lemmas and the claim theorem for sort canonicity (C4). -/

theorem perm_flatten {α : Type} {l₁ l₂ : List (List α)} (h : List.Perm l₁ l₂) :
    List.Perm l₁.flatten l₂.flatten := by
  induction h with
  | nil => exact List.Perm.refl _
  | cons x _ ih => simpa using ih.append_left x
  | swap x y l => simpa using List.perm_append_comm_assoc y x l.flatten
  | trans _ _ ih₁ ih₂ => exact ih₁.trans ih₂

theorem combinedRows_perm (download : String → List YfRow)
    {l₁ l₂ : List String} (h : List.Perm l₁ l₂) :
    List.Perm (combinedRows download l₁) (combinedRows download l₂) :=
  perm_flatten (h.filterMap _)

theorem le_and_ne_imp_lt {a b : PriceRow}
    (hle : datetimeTickerLe a b)
    (hne : (a.datetime, a.ticker) ≠ (b.datetime, b.ticker)) :
    datetimeTickerLt a b := by
  rcases hle with h | ⟨he, ht⟩
  · exact Or.inl h
  · rcases ht with he' | hlt
    · exact absurd (by rw [he, he']) hne
    · exact Or.inr ⟨he, hlt⟩

theorem sorted_strict {l : List PriceRow}
    (hs : l.Sorted datetimeTickerLe)
    (hk : l.Pairwise fun a b => (a.datetime, a.ticker) ≠ (b.datetime, b.ticker)) :
    l.Sorted datetimeTickerLt :=
  (hs.and hk).imp fun h => le_and_ne_imp_lt h.1 h.2

/-- C4: when at least one ticker yields data and the combined rows carry
pairwise-distinct (timestamp, ticker) keys, `get_data` succeeds, its table
is sorted primarily by timestamp and secondarily by ticker, and the row
order is identical for every permutation of the requested ticker list. -/
theorem sort_order_canonical (download : String → List YfRow)
    (l₁ l₂ : List String) (now : DateTime) (fs : FileSystem)
    (hperm : List.Perm l₁ l₂)
    (hsome : ∃ t ∈ l₁, download t ≠ [])
    (hkeys : (combinedRows download l₁).Pairwise
      fun a b => (a.datetime, a.ticker) ≠ (b.datetime, b.ticker)) :
    (get_data_table download l₁).Sorted datetimeTickerLe ∧
      get_data_table download l₁ = get_data_table download l₂ ∧
      (get_data download l₁ now fs).2 = Except.ok (csvName now) := by
  have hsorted₁ : (get_data_table download l₁).Sorted datetimeTickerLe :=
    List.sorted_insertionSort _ _
  have hsorted₂ : (get_data_table download l₂).Sorted datetimeTickerLe :=
    List.sorted_insertionSort _ _
  have hcperm : List.Perm (combinedRows download l₁) (combinedRows download l₂) :=
    combinedRows_perm download hperm
  have hp₁ : List.Perm (get_data_table download l₁) (combinedRows download l₁) :=
    List.perm_insertionSort _ _
  have hp₂ : List.Perm (get_data_table download l₂) (combinedRows download l₂) :=
    List.perm_insertionSort _ _
  have htp : List.Perm (get_data_table download l₁) (get_data_table download l₂) :=
    hp₁.trans (hcperm.trans hp₂.symm)
  have hk₁ := (hp₁.pairwise_iff fun h => Ne.symm h).mpr hkeys
  have hk₂ := (hp₂.pairwise_iff fun h => Ne.symm h).mpr
    ((hcperm.pairwise_iff fun h => Ne.symm h).mp hkeys)
  have heq := List.eq_of_perm_of_sorted htp
    (sorted_strict hsorted₁ hk₁) (sorted_strict hsorted₂ hk₂)
  refine ⟨hsorted₁, heq, ?_⟩
  obtain ⟨t₁, ht₁, hne₁⟩ := hsome
  have hblocks : fetchBlocks download l₁ ≠ [] := fun hnil =>
    hne₁ ((fetchBlocks_eq_nil_iff download l₁).mp hnil t₁ ht₁)
  unfold get_data
  rw [if_neg hblocks]

/-- C4 witness: the permutation ["A", "B"] vs ["B", "A"] under the
concrete fetch `dlW`. -/
theorem sort_order_canonical_witness :
    List.Perm (["A", "B"] : List String) ["B", "A"] ∧
      ((get_data_table dlW ["A", "B"]).Sorted datetimeTickerLe ∧
        get_data_table dlW ["A", "B"] = get_data_table dlW ["B", "A"] ∧
        (get_data dlW ["A", "B"] nowW fsEmpty).2 = Except.ok (csvName nowW)) :=
  ⟨List.Perm.swap "B" "A" [],
    sort_order_canonical dlW ["A", "B"] ["B", "A"] nowW fsEmpty
      (List.Perm.swap "B" "A" []) ⟨"A", by decide, by decide⟩ (by decide)⟩

/-! Lemmas and the claim theorem for latest-file selection (C5). -/

theorem sorted_getLast?_max {α : Type} [Preorder α] {l : List α} {m : α}
    (hs : l.Sorted (fun a b : α => a ≤ b)) (hm : l.getLast? = some m) :
    ∀ x ∈ l, x ≤ m := by
  obtain ⟨ys, rfl⟩ := List.getLast?_eq_some_iff.mp hm
  have hp : List.Pairwise (fun a b : α => a ≤ b) (ys ++ [m]) := hs
  rw [List.pairwise_append] at hp
  intro x hx
  rcases List.mem_append.mp hx with hx | hx
  · exact hp.2.2 x hx m (List.mem_singleton.mpr rfl)
  · exact le_of_eq (List.mem_singleton.mp hx)

theorem lex_cons_iff {α : Type} {r : α → α → Prop} {x y : α} {u v : List α} :
    List.Lex r (x :: u) (y :: v) ↔ r x y ∨ (x = y ∧ List.Lex r u v) := by
  constructor
  · intro h
    cases h with
    | cons h => exact Or.inr ⟨rfl, h⟩
    | rel h => exact Or.inl h
  · intro h
    rcases h with h | ⟨rfl, h⟩
    · exact List.Lex.rel h
    · exact List.Lex.cons h

theorem lex_append_iff {α : Type} {r : α → α → Prop} :
    ∀ (a c b d : List α), a.length = c.length →
      (List.Lex r (a ++ b) (c ++ d) ↔
        List.Lex r a c ∨ (a = c ∧ List.Lex r b d)) := by
  intro a
  induction a with
  | nil =>
    intro c b d hlen
    have hc : c = [] := by
      cases c with
      | nil => rfl
      | cons y c' => simp at hlen
    subst hc
    simp only [List.nil_append]
    constructor
    · intro h
      exact Or.inr ⟨by simp, h⟩
    · rintro (h | ⟨-, h⟩)
      · exact absurd h (List.Lex.not_nil_right r [])
      · exact h
  | cons x a ih =>
    intro c b d hlen
    cases c with
    | nil => simp at hlen
    | cons y c' =>
      have hl : a.length = c'.length := by simpa using hlen
      rw [List.cons_append, List.cons_append, lex_cons_iff, lex_cons_iff,
        ih c' b d hl]
      simp only [List.cons.injEq]
      tauto

theorem digitChar_lt_iff : ∀ x < 10, ∀ y < 10,
    ((digitChar x < digitChar y) ↔ x < y) := by
  decide

theorem digitChar_inj : ∀ x < 10, ∀ y < 10,
    ((digitChar x = digitChar y) ↔ x = y) := by
  decide

theorem pad2_lt_iff : ∀ m < 100, ∀ n < 100,
    (List.Lex (· < ·) (pad2 m) (pad2 n) ↔ m < n) := by
  intro m hm n hn
  have h1 := digitChar_lt_iff (m / 10) (by omega) (n / 10) (by omega)
  have h2 := digitChar_lt_iff (m % 10) (by omega) (n % 10) (by omega)
  have h3 := digitChar_inj (m / 10) (by omega) (n / 10) (by omega)
  unfold pad2
  rw [lex_cons_iff, lex_cons_iff]
  constructor
  · rintro (h | ⟨he, h | ⟨-, h⟩⟩)
    · have := h1.mp h
      omega
    · have := h2.mp h
      have := h3.mp he
      omega
    · exact absurd h (List.Lex.not_nil_right _ [])
  · intro h
    by_cases hd : m / 10 = n / 10
    · exact Or.inr ⟨h3.mpr hd, Or.inl (h2.mpr (by omega))⟩
    · exact Or.inl (h1.mpr (by omega))

theorem pad2_inj : ∀ m < 100, ∀ n < 100, (pad2 m = pad2 n ↔ m = n) := by
  intro m hm n hn
  have h3 := digitChar_inj (m / 10) (by omega) (n / 10) (by omega)
  have h4 := digitChar_inj (m % 10) (by omega) (n % 10) (by omega)
  unfold pad2
  simp only [List.cons.injEq, and_true]
  constructor
  · rintro ⟨e1, e2⟩
    have := h3.mp e1
    have := h4.mp e2
    omega
  · rintro rfl
    simp

theorem pad4_lt_iff : ∀ m < 10000, ∀ n < 10000,
    (List.Lex (· < ·) (pad4 m) (pad4 n) ↔ m < n) := by
  intro m hm n hn
  unfold pad4
  rw [lex_append_iff (pad2 (m / 100)) (pad2 (n / 100)) _ _ rfl,
    pad2_lt_iff (m / 100) (by omega) (n / 100) (by omega),
    pad2_inj (m / 100) (by omega) (n / 100) (by omega),
    pad2_lt_iff (m % 100) (by omega) (n % 100) (by omega)]
  omega

theorem pad4_inj : ∀ m < 10000, ∀ n < 10000, (pad4 m = pad4 n ↔ m = n) := by
  intro m hm n hn
  unfold pad4
  constructor
  · intro h
    obtain ⟨e1, e2⟩ := List.append_inj h rfl
    have := (pad2_inj (m / 100) (by omega) (n / 100) (by omega)).mp e1
    have := (pad2_inj (m % 100) (by omega) (n % 100) (by omega)).mp e2
    omega
  · rintro rfl
    rfl

theorem timestamp_str_lt_iff {t₁ t₂ : DateTime}
    (h₁ : ValidDT t₁) (h₂ : ValidDT t₂) :
    List.Lex (· < ·) (timestamp_str t₁) (timestamp_str t₂) ↔ chronoLt t₁ t₂ := by
  obtain ⟨hy₁, _, hmo₁, _, hd₁, hh₁, hmi₁, hs₁⟩ := h₁
  obtain ⟨hy₂, _, hmo₂, _, hd₂, hh₂, hmi₂, hs₂⟩ := h₂
  unfold timestamp_str chronoLt
  rw [lex_append_iff (pad4 t₁.year) (pad4 t₂.year) _ _ rfl,
    pad4_lt_iff t₁.year hy₁ t₂.year hy₂,
    pad4_inj t₁.year hy₁ t₂.year hy₂,
    lex_append_iff (pad2 t₁.month) (pad2 t₂.month) _ _ rfl,
    pad2_lt_iff t₁.month (by omega) t₂.month (by omega),
    pad2_inj t₁.month (by omega) t₂.month (by omega),
    lex_append_iff (pad2 t₁.day) (pad2 t₂.day) _ _ rfl,
    pad2_lt_iff t₁.day (by omega) t₂.day (by omega),
    pad2_inj t₁.day (by omega) t₂.day (by omega),
    lex_cons_iff,
    lex_append_iff (pad2 t₁.hour) (pad2 t₂.hour) _ _ rfl,
    pad2_lt_iff t₁.hour (by omega) t₂.hour (by omega),
    pad2_inj t₁.hour (by omega) t₂.hour (by omega),
    lex_append_iff (pad2 t₁.minute) (pad2 t₂.minute) _ _ rfl,
    pad2_lt_iff t₁.minute (by omega) t₂.minute (by omega),
    pad2_inj t₁.minute (by omega) t₂.minute (by omega),
    pad2_lt_iff t₁.second (by omega) t₂.second (by omega)]
  simp only [show ¬(('-' : Char) < '-') by decide, false_or, eq_self_iff_true,
    true_and]

theorem csvName_lt_iff {t₁ t₂ : DateTime}
    (h₁ : ValidDT t₁) (h₂ : ValidDT t₂) :
    List.Lex (· < ·) (csvName t₁) (csvName t₂) ↔ chronoLt t₁ t₂ := by
  unfold csvName
  rw [lex_append_iff (timestamp_str t₁) (timestamp_str t₂) csvExt csvExt rfl,
    timestamp_str_lt_iff h₁ h₂]
  simp only [show ¬ List.Lex (· < ·) csvExt csvExt by decide, and_false, or_false]

/-- C5: `plot_data` selects the lexicographically greatest filename among
the table files of the data directory, and on filenames in the fixed
`YYYYMMDD-HHMMSS` format lexicographic order coincides with chronological
order, so the selected file is the most recently created one. -/
theorem latest_file_selection :
    (∀ fs m, (sortedFiles (ensure_dir fs "data")).getLast? = some m →
      m ∈ dataListing fs ∧ ∀ n ∈ dataListing fs, n ≤ m) ∧
    ∀ t₁ t₂, ValidDT t₁ → ValidDT t₂ →
      (List.Lex (· < ·) (csvName t₁) (csvName t₂) ↔ chronoLt t₁ t₂) := by
  constructor
  · intro fs m hm
    have hlist : sortedFiles (ensure_dir fs "data") =
        List.insertionSort (fun a b : List Char => a ≤ b) (dataListing fs) := by
      unfold sortedFiles
      rw [dataListing_ensure_dir]
    rw [hlist] at hm
    have hperm := List.perm_insertionSort
      (fun a b : List Char => a ≤ b) (dataListing fs)
    refine ⟨hperm.mem_iff.mp (List.mem_of_getLast?_eq_some hm), fun n hn => ?_⟩
    exact sorted_getLast?_max (List.sorted_insertionSort _ _) hm n
      (hperm.mem_iff.mpr hn)
  · exact fun t₁ t₂ h₁ h₂ => csvName_lt_iff h₁ h₂

/-- C5 witness: selection on the one-file store `fsW` and the order
equivalence at two concrete instants. -/
theorem latest_file_selection_witness :
    ((sortedFiles (ensure_dir fsW "data")).getLast? =
        some (csvName ⟨2025, 1, 1, 0, 0, 0⟩) ∧
      (csvName ⟨2025, 1, 1, 0, 0, 0⟩ ∈ dataListing fsW ∧
        ∀ n ∈ dataListing fsW, n ≤ csvName ⟨2025, 1, 1, 0, 0, 0⟩)) ∧
      ValidDT ⟨2025, 1, 1, 0, 0, 0⟩ ∧ ValidDT nowW ∧
      (List.Lex (· < ·) (csvName ⟨2025, 1, 1, 0, 0, 0⟩) (csvName nowW) ↔
        chronoLt ⟨2025, 1, 1, 0, 0, 0⟩ nowW) :=
  ⟨⟨by decide, latest_file_selection.1 fsW (csvName ⟨2025, 1, 1, 0, 0, 0⟩)
      (by decide)⟩,
    by decide, by decide,
    latest_file_selection.2 ⟨2025, 1, 1, 0, 0, 0⟩ nowW (by decide) (by decide)⟩

end Faang
